import Mathlib

/-!
Verification of the todo-list Task Collection Manager.

The definitions below are a shallow embedding of the JavaScript sources:
TodoApp (src/js/core/TodoApp.js), StorageManager (src/js/core/StorageManager.js),
TodoRenderer.filterTodos (src/js/ui/TodoRenderer.js) and the helpers
validateTodoText / generateId (src/js/utils/helpers.js).

Modelling conventions:
- JavaScript numbers that hold ids and timestamps are modelled as Int.
- String.prototype.trim / toLowerCase / includes and Array.prototype.indexOf
  are re-implemented over the character list of a Lean String (jsTrim,
  jsToLower, jsIncludes, jsIndexOf).
- Array.prototype.sort with a comparator derived from a key is modelled as a
  stable insertion sort by that key (ECMAScript 2019 requires sort stability,
  and the comparator in reorderTodos is consistent, i.e. key-based).
- DOM, toasts and rendering are omitted; the blocking confirm / prompt dialogs
  become explicit Bool / Option String parameters; Date.now() and
  Math.random() become explicit Int parameters.
- Fallible operations return the state paired with an Outcome that records
  the branch the code took (ok / invalidInput / notFound).
-/

namespace TodoSpec

/-- A task record, as stored in this.todos and in localStorage. -/
structure Task where
  id : Int
  text : String
  completed : Bool
  createdAt : String
deriving DecidableEq

/-- The state fields of the TodoApp class that the collection manager owns. -/
structure AppState where
  todos : List Task
  filter : String
  searchQuery : String
  deletedTodo : Option Task
  deletedTime : Option Int
deriving DecidableEq

/-- The TodoApp constructor state (before loadFromStorage runs). -/
def initialState : AppState :=
  { todos := [], filter := "all", searchQuery := "", deletedTodo := none,
    deletedTime := none }

/-- Outcome of a fallible manager operation, mirroring which branch of the
JavaScript method ran (section 7 of the spec calls these InvalidInput /
NotFound). -/
inductive Outcome where
  | ok
  | invalidInput
  | notFound
deriving DecidableEq

/-- JavaScript whitespace test for trim, modelled by Char.isWhitespace. -/
def isJsSpace (c : Char) : Bool := c.isWhitespace

/-- String.prototype.trim on the character list. -/
def jsTrimList (l : List Char) : List Char :=
  ((l.dropWhile isJsSpace).reverse.dropWhile isJsSpace).reverse

/-- String.prototype.trim. -/
def jsTrim (s : String) : String := String.mk (jsTrimList s.data)

/-- String.prototype.toLowerCase (ASCII case mapping via Char.toLower). -/
def jsToLower (s : String) : String := String.mk (s.data.map Char.toLower)

/-- Does hay start with needle (helper for jsIncludes)? -/
def listStartsWith : List Char → List Char → Bool
  | _, [] => true
  | [], _ :: _ => false
  | a :: as, b :: bs => (a == b) && listStartsWith as bs

/-- Does hay contain needle as a contiguous run (helper for jsIncludes)? -/
def listContains : List Char → List Char → Bool
  | [], needle => needle.isEmpty
  | a :: as, needle => listStartsWith (a :: as) needle || listContains as needle

/-- String.prototype.includes. -/
def jsIncludes (hay needle : String) : Bool := listContains hay.data needle.data

/-- Array.prototype.indexOf on a list of ids: index of the first occurrence,
-1 when absent. -/
def jsIndexOf : List Int → Int → Int
  | [], _ => -1
  | y :: ys, x =>
    if y = x then 0
    else
      let r := jsIndexOf ys x
      if r = -1 then -1 else r + 1

/-- validateTodoText from src/js/utils/helpers.js: the trimmed text is
non-empty (the typeof-string check always passes in this typed model). -/
def validateTodoText (text : String) : Bool :=
  decide (0 < (jsTrim text).data.length)

/-- generateId from src/js/utils/helpers.js: Date.now() plus a random
integer jitter, both supplied explicitly. -/
def generateId (now rand : Int) : Int := now + rand

/-- TodoApp.addTodo: append a freshly built task and persist. -/
def addTodo (s : AppState) (text : String) (now rand : Int) (dateStr : String) :
    AppState :=
  { s with todos := s.todos ++
      [{ id := generateId now rand, text := text, completed := false,
         createdAt := dateStr }] }

/-- TodoApp.handleAddTodo: trim the input field, validate, then addTodo.
The invalid branch shows a toast and leaves all state unchanged. -/
def handleAddTodo (s : AppState) (input : String) (now rand : Int)
    (dateStr : String) : AppState × Outcome :=
  let text := jsTrim input
  if validateTodoText text then (addTodo s text now rand dateStr, .ok)
  else (s, .invalidInput)

/-- Array.prototype.find on tasks by id (first match). -/
def findFirstById : List Task → Int → Option Task
  | [], _ => none
  | t :: ts, i => if t.id = i then some t else findFirstById ts i

/-- Update the first task carrying the given id (find + in-place mutation). -/
def updateFirstById (ts : List Task) (i : Int) (f : Task → Task) : List Task :=
  match ts with
  | [] => []
  | t :: rest => if t.id = i then f t :: rest else t :: updateFirstById rest i f

/-- findIndex + splice(index, 1): drop the first task carrying the id. -/
def removeFirstById : List Task → Int → List Task
  | [], _ => []
  | t :: ts, i => if t.id = i then ts else t :: removeFirstById ts i

/-- TodoApp.toggleTodo: flip completed on the first task with the id;
silently does nothing when the id is absent. -/
def toggleTodo (s : AppState) (i : Int) : AppState :=
  { s with todos :=
      updateFirstById s.todos i (fun t => { t with completed := !t.completed }) }

/-- TodoApp.editTodo: missing id returns early; a null prompt or invalid text
changes nothing; otherwise the first task's text becomes the trimmed input. -/
def editTodo (s : AppState) (i : Int) (promptResult : Option String) :
    AppState × Outcome :=
  match findFirstById s.todos i with
  | none => (s, .notFound)
  | some _ =>
    match promptResult with
    | none => (s, .invalidInput)
    | some newText =>
      if validateTodoText newText then
        ({ s with todos :=
            updateFirstById s.todos i (fun t => { t with text := jsTrim newText }) },
         .ok)
      else (s, .invalidInput)

/-- TodoApp.deleteTodo: missing id returns early; otherwise the first task
with the id is moved into the pending-undo slot together with Date.now(). -/
def deleteTodo (s : AppState) (i : Int) (now : Int) : AppState × Outcome :=
  match findFirstById s.todos i with
  | none => (s, .notFound)
  | some t =>
    ({ s with
        todos := removeFirstById s.todos i
        deletedTodo := some t
        deletedTime := some now }, .ok)

/-- TodoApp.setupUndo, at the moment the user answers the confirm dialog:
confirmed is the dialog answer, now is Date.now() at that moment. The task is
re-appended only when the user confirms inside the 5000 ms window (a null
deletedTime coerces to 0 in the JavaScript subtraction, reflected by getD 0;
with an empty slot the guard can only pass for now < 5000, in which case the
push of a null slot is modelled as a no-op). The slot is always cleared. -/
def setupUndo (s : AppState) (now : Int) (confirmed : Bool) : AppState :=
  let s' :=
    if confirmed = true ∧ now - s.deletedTime.getD 0 < 5000 then
      match s.deletedTodo with
      | some t => { s with todos := s.todos ++ [t] }
      | none => s
    else s
  { s' with deletedTodo := none, deletedTime := none }

/-- TodoApp.clearCompleted: no-op when nothing is completed; otherwise the
confirm dialog gates removal of every completed task. -/
def clearCompleted (s : AppState) (confirmed : Bool) : AppState :=
  if (s.todos.filter (fun t => t.completed)).length = 0 then s
  else if confirmed then
    { s with todos := s.todos.filter (fun t => !t.completed) }
  else s

/-- Stable insertion of a task into a key-sorted list: the new task goes in
front of the first element whose key is not smaller (so in front of equal
keys, which is correct stable-insertion-sort behaviour because the inserted
element precedes the already-sorted tail in the original list). -/
def insertByKey (k : Task → Int) (t : Task) : List Task → List Task
  | [] => [t]
  | x :: xs => if k t ≤ k x then t :: x :: xs else x :: insertByKey k t xs

/-- Stable sort by an integer key (models Array.prototype.sort with the
consistent comparator (a, b) => k a - k b; ECMAScript sort is stable). -/
def sortByKey (k : Task → Int) : List Task → List Task
  | [] => []
  | x :: xs => insertByKey k x (sortByKey k xs)

/-- The list-level body of TodoApp.reorderTodos: sort by position of each
task's id in orderedIds, where indexOf yields -1 for unrecognized ids. -/
def jsSortByOrderKey (orderedIds : List Int) (todos : List Task) : List Task :=
  sortByKey (fun t => jsIndexOf orderedIds t.id) todos

/-- TodoApp.reorderTodos. -/
def reorderTodos (s : AppState) (orderedIds : List Int) : AppState :=
  { s with todos := jsSortByOrderKey orderedIds s.todos }

/-- The search half of TodoRenderer.filterTodos: when the query is non-empty
after trimming, keep the tasks whose lowercased text contains the lowercased
(UNtrimmed) query. -/
def searchStep (todos : List Task) (searchQuery : String) : List Task :=
  if jsTrim searchQuery ≠ "" then
    todos.filter (fun todo => jsIncludes (jsToLower todo.text) (jsToLower searchQuery))
  else todos

/-- TodoRenderer.filterTodos from src/js/ui/TodoRenderer.js: search narrows
first, then the switch on the filter string (any string other than active or
completed falls to the default branch, which keeps everything). -/
def filterTodos (todos : List Task) (flt : String) (searchQuery : String) :
    List Task :=
  if flt = "active" then (searchStep todos searchQuery).filter (fun t => !t.completed)
  else if flt = "completed" then
    (searchStep todos searchQuery).filter (fun t => t.completed)
  else searchStep todos searchQuery

/-- The search predicate actually implemented by filterTodos. -/
def searchMatches (q : String) (t : Task) : Bool :=
  if jsTrim q ≠ "" then jsIncludes (jsToLower t.text) (jsToLower q) else true

/-- The search predicate in the words of the claim: case-insensitive
substring match of the TRIMMED query (used only to compare against the
implementation; the implementation matches the untrimmed query). -/
def searchMatchesSpec (q : String) (t : Task) : Bool :=
  if jsTrim q ≠ "" then jsIncludes (jsToLower t.text) (jsToLower (jsTrim q))
  else true

/-- The completion-filter predicate of filterTodos. -/
def filterMatches (flt : String) (t : Task) : Bool :=
  if flt = "active" then !t.completed
  else if flt = "completed" then t.completed
  else true

/-- The reorder result in the words of the claim: tasks whose ids occur in
orderedIds first, in orderedIds order, then the unrecognized tasks appended
after in original relative order (used only to compare against the
implementation; assumes distinct ids as the claim's example has). -/
def reorderSpec (todos : List Task) (orderedIds : List Int) : List Task :=
  (orderedIds.filterMap (fun i => findFirstById todos i)) ++
    todos.filter (fun t => !(orderedIds.contains t.id))

/-- A JSON-like value, enough to model what JSON.parse can hand to
StorageManager.validateTodos (numbers restricted to the integers the rest of
the app manipulates). -/
inductive JVal where
  | null
  | bool (b : Bool)
  | num (n : Int)
  | str (s : String)
  | arr (xs : List JVal)
  | obj (fields : List (String × JVal))

/-- Field lookup on a JSON object (JavaScript objects hold each key once;
first occurrence wins). -/
def jGet : List (String × JVal) → String → Option JVal
  | [], _ => none
  | (k, v) :: rest, key => if k = key then some v else jGet rest key

/-- One element check of StorageManager.validateTodos: a non-null object with
a numeric id, string text, boolean completed and string createdAt (a non
object value fails the typeof/field checks). -/
def validTodoJson (v : JVal) : Bool :=
  match v with
  | .obj fields =>
    (match jGet fields "id" with | some (.num _) => true | _ => false) &&
    (match jGet fields "text" with | some (.str _) => true | _ => false) &&
    (match jGet fields "completed" with | some (.bool _) => true | _ => false) &&
    (match jGet fields "createdAt" with | some (.str _) => true | _ => false)
  | _ => false

/-- StorageManager.validateTodos: the payload must be an array and every
element must pass validTodoJson (all-or-nothing). -/
def validateTodos (v : JVal) : Bool :=
  match v with
  | .arr xs => xs.all validTodoJson
  | _ => false

/-- Decode one validated element into a Task (defaults are never used on
payloads accepted by validateTodos). -/
def decodeTodo (v : JVal) : Task :=
  match v with
  | .obj fields =>
    { id := match jGet fields "id" with | some (.num n) => n | _ => 0,
      text := match jGet fields "text" with | some (.str s) => s | _ => "",
      completed := match jGet fields "completed" with | some (.bool b) => b | _ => false,
      createdAt := match jGet fields "createdAt" with | some (.str s) => s | _ => "" }
  | _ => { id := 0, text := "", completed := false, createdAt := "" }

/-- Decode a validated payload into the task list. -/
def decodeTodos (v : JVal) : List Task :=
  match v with
  | .arr xs => xs.map decodeTodo
  | _ => []

/-- TodoApp.loadFromStorage. todosPayload / filterPayload are the parsed
stored values; none models an absent key or a JSON.parse failure, for which
StorageManager.load returns the default ([] for todos, null for the filter).
Todos are replaced only when validateTodos accepts the loaded value; the
filter is replaced only by one of the three valid filter strings. -/
def storedTodosValue (todosPayload : Option JVal) : JVal :=
  match todosPayload with
  | none => .arr []
  | some v => v

/-- The todos half of loadFromStorage: replace this.todos only when the
loaded value passes validateTodos. -/
def loadTodosStep (s : AppState) (todosPayload : Option JVal) : AppState :=
  if validateTodos (storedTodosValue todosPayload) then
    { s with todos := decodeTodos (storedTodosValue todosPayload) }
  else s

/-- The filter half of loadFromStorage: a truthy stored filter replaces
this.filter only when it is one of the three valid filter strings. -/
def loadFilterStep (s1 : AppState) (filterPayload : Option JVal) : AppState :=
  match filterPayload with
  | some (.str f) =>
    if f = "all" ∨ f = "active" ∨ f = "completed" then { s1 with filter := f }
    else s1
  | _ => s1

def loadFromStorage (s : AppState) (todosPayload filterPayload : Option JVal) :
    AppState :=
  loadFilterStep (loadTodosStep s todosPayload) filterPayload

/-- Reachable states of the manager: any sequence of
load / add / toggle / edit / delete / undo / clearCompleted / reorder from
the constructor state, with the platform inputs (times, random jitter,
dialog answers, stored payloads) chosen arbitrarily. -/
inductive Reachable : AppState → Prop
  | init : Reachable initialState
  | load (s : AppState) (tp fp : Option JVal) :
      Reachable s → Reachable (loadFromStorage s tp fp)
  | add (s : AppState) (input : String) (now rand : Int) (dateStr : String) :
      Reachable s → Reachable (handleAddTodo s input now rand dateStr).1
  | toggle (s : AppState) (i : Int) : Reachable s → Reachable (toggleTodo s i)
  | edit (s : AppState) (i : Int) (pr : Option String) :
      Reachable s → Reachable (editTodo s i pr).1
  | del (s : AppState) (i : Int) (now : Int) :
      Reachable s → Reachable (deleteTodo s i now).1
  | undo (s : AppState) (now : Int) (confirmed : Bool) :
      Reachable s → Reachable (setupUndo s now confirmed)
  | clear (s : AppState) (confirmed : Bool) :
      Reachable s → Reachable (clearCompleted s confirmed)
  | reorder (s : AppState) (orderedIds : List Int) :
      Reachable s → Reachable (reorderTodos s orderedIds)

/-- Reachability restricted by the id-freshness discipline of the amended
uniqueness claim: every add generates an id distinct from all ids in the
collection and from the pending-undo slot's id, and every load results in a
collection with distinct ids none of which equals the slot's id. The other
operations are unrestricted. -/
inductive ReachableU : AppState → Prop
  | init : ReachableU initialState
  | load (s : AppState) (tp fp : Option JVal) :
      ReachableU s →
      ((loadFromStorage s tp fp).todos.map Task.id).Nodup →
      (∀ t, s.deletedTodo = some t →
        t.id ∉ (loadFromStorage s tp fp).todos.map Task.id) →
      ReachableU (loadFromStorage s tp fp)
  | add (s : AppState) (input : String) (now rand : Int) (dateStr : String) :
      ReachableU s →
      generateId now rand ∉ s.todos.map Task.id →
      (∀ t, s.deletedTodo = some t → generateId now rand ≠ t.id) →
      ReachableU (handleAddTodo s input now rand dateStr).1
  | toggle (s : AppState) (i : Int) : ReachableU s → ReachableU (toggleTodo s i)
  | edit (s : AppState) (i : Int) (pr : Option String) :
      ReachableU s → ReachableU (editTodo s i pr).1
  | del (s : AppState) (i : Int) (now : Int) :
      ReachableU s → ReachableU (deleteTodo s i now).1
  | undo (s : AppState) (now : Int) (confirmed : Bool) :
      ReachableU s → ReachableU (setupUndo s now confirmed)
  | clear (s : AppState) (confirmed : Bool) :
      ReachableU s → ReachableU (clearCompleted s confirmed)
  | reorder (s : AppState) (orderedIds : List Int) :
      ReachableU s → ReachableU (reorderTodos s orderedIds)

/-- The inductive invariant behind the amended uniqueness claim: ids in the
collection are distinct, and the pending-undo slot's id is not among them. -/
def UniqueInv (s : AppState) : Prop :=
  (s.todos.map Task.id).Nodup ∧
    ∀ t, s.deletedTodo = some t → t.id ∉ s.todos.map Task.id

/-- A reachable state exhibiting an id collision: two adds whose generateId
inputs coincide (same millisecond, same random jitter). -/
def dupIdState : AppState :=
  (handleAddTodo (handleAddTodo initialState "a" 100 0 "d").1 "a" 100 0 "d").1

/-- Two-task collection used to test reorder with a partial id list. -/
def reorderTaskA : Task :=
  { id := 1, text := "a", completed := false, createdAt := "c" }

def reorderTaskB : Task :=
  { id := 2, text := "b", completed := false, createdAt := "c" }

/-- Three-task collection with ids 1, 2, 3 (the spec's reorder example). -/
def reorderWitnessState : AppState :=
  { initialState with todos :=
      [{ id := 1, text := "one", completed := false, createdAt := "c" },
       { id := 2, text := "two", completed := false, createdAt := "c" },
       { id := 3, text := "three", completed := false, createdAt := "c" }] }

/-- A task whose text is exactly the word the search examples look for. -/
def milkTask : Task :=
  { id := 1, text := "milk", completed := false, createdAt := "c" }

/-- One-task collection used to exercise delete and undo. -/
def undoDemoTask : Task :=
  { id := 7, text := "t7", completed := true, createdAt := "d7" }

def undoDemoState : AppState :=
  { initialState with todos := [undoDemoTask] }

/-- One-task collection used to exercise operations on a missing id. -/
def missDemoState : AppState :=
  { initialState with todos :=
      [{ id := 1, text := "a", completed := false, createdAt := "c" }] }

theorem dropWhile_head_false {p : Char → Bool} (l : List Char) {c : Char}
    {cs : List Char} (h : l.dropWhile p = c :: cs) : p c = false := by
  induction l with
  | nil => simp at h
  | cons a t ih =>
    rw [List.dropWhile_cons] at h
    by_cases ha : p a
    · exact ih (by simpa [ha] using h)
    · rw [if_neg ha] at h
      cases h
      simpa using ha

theorem dropWhile_dropWhile (p : Char → Bool) (l : List Char) :
    (l.dropWhile p).dropWhile p = l.dropWhile p := by
  cases h : l.dropWhile p with
  | nil => simp
  | cons c cs =>
    rw [List.dropWhile_cons, dropWhile_head_false l h]
    simp

theorem jsTrimList_dropWhile (l : List Char) :
    (jsTrimList l).dropWhile isJsSpace = jsTrimList l := by
  have hdecomp : l.dropWhile isJsSpace =
      jsTrimList l ++
        ((l.dropWhile isJsSpace).reverse.takeWhile isJsSpace).reverse := by
    have h := List.takeWhile_append_dropWhile isJsSpace
      (l.dropWhile isJsSpace).reverse
    have h2 := congrArg List.reverse h
    rw [List.reverse_append, List.reverse_reverse] at h2
    exact h2.symm
  cases hT : jsTrimList l with
  | nil => simp
  | cons c cs =>
    rw [hT] at hdecomp
    rw [List.cons_append] at hdecomp
    have hc : isJsSpace c = false := dropWhile_head_false l hdecomp
    rw [List.dropWhile_cons, hc]
    simp

theorem jsTrimList_reverse_dropWhile (l : List Char) :
    (jsTrimList l).reverse.dropWhile isJsSpace = (jsTrimList l).reverse := by
  unfold jsTrimList
  rw [List.reverse_reverse]
  exact dropWhile_dropWhile _ _

theorem jsTrimList_idem (l : List Char) :
    jsTrimList (jsTrimList l) = jsTrimList l := by
  show (((jsTrimList l).dropWhile isJsSpace).reverse.dropWhile isJsSpace).reverse
      = jsTrimList l
  rw [jsTrimList_dropWhile, jsTrimList_reverse_dropWhile, List.reverse_reverse]

theorem string_eq_empty_iff (s : String) : s = "" ↔ s.data = [] := by
  constructor
  · intro h
    rw [h]
  · intro h
    cases s with
    | mk d => cases h; rfl

theorem validateTodoText_jsTrim_of_ne (input : String) (h : jsTrim input ≠ "") :
    validateTodoText (jsTrim input) = true := by
  unfold validateTodoText
  have hd : (jsTrim (jsTrim input)).data = (jsTrim input).data :=
    jsTrimList_idem input.data
  rw [hd, decide_eq_true_eq]
  have hne : (jsTrim input).data ≠ [] := fun hnil =>
    h ((string_eq_empty_iff _).2 hnil)
  exact List.length_pos.mpr hne

theorem findFirstById_eq_none (ts : List Task) (i : Int) :
    findFirstById ts i = none ↔ i ∉ ts.map Task.id := by
  induction ts with
  | nil => simp [findFirstById]
  | cons t rest ih =>
    by_cases h : t.id = i
    · simp [findFirstById, h]
    · simp only [findFirstById, if_neg h, ih, List.map_cons, List.mem_cons]
      constructor
      · intro hn hmem
        rcases hmem with hmem | hmem
        · exact h hmem.symm
        · exact hn hmem
      · intro hn hmem
        exact hn (Or.inr hmem)

theorem findFirstById_id (ts : List Task) (i : Int) (t : Task)
    (h : findFirstById ts i = some t) : t.id = i := by
  induction ts with
  | nil => simp [findFirstById] at h
  | cons u rest ih =>
    by_cases hu : u.id = i
    · rw [findFirstById, if_pos hu] at h
      cases h
      exact hu
    · rw [findFirstById, if_neg hu] at h
      exact ih h

theorem updateFirstById_map_id (ts : List Task) (i : Int) (f : Task → Task)
    (hf : ∀ t, (f t).id = t.id) :
    (updateFirstById ts i f).map Task.id = ts.map Task.id := by
  induction ts with
  | nil => rfl
  | cons t rest ih =>
    by_cases h : t.id = i
    · simp [updateFirstById, h, hf]
    · simp [updateFirstById, h, ih]

theorem updateFirstById_of_not_mem (ts : List Task) (i : Int) (f : Task → Task)
    (h : i ∉ ts.map Task.id) : updateFirstById ts i f = ts := by
  induction ts with
  | nil => rfl
  | cons t rest ih =>
    simp only [List.map_cons, List.mem_cons] at h
    push_neg at h
    rw [updateFirstById, if_neg (fun he => h.1 he.symm), ih h.2]

theorem removeFirstById_sublist (ts : List Task) (i : Int) :
    List.Sublist (removeFirstById ts i) ts := by
  induction ts with
  | nil => simp [removeFirstById]
  | cons t rest ih =>
    by_cases h : t.id = i
    · rw [removeFirstById, if_pos h]
      exact (List.sublist_cons_self t rest)
    · rw [removeFirstById, if_neg h]
      exact List.Sublist.cons₂ t ih

theorem length_removeFirstById (ts : List Task) (i : Int) (t : Task)
    (h : findFirstById ts i = some t) :
    (removeFirstById ts i).length + 1 = ts.length := by
  induction ts with
  | nil => simp [findFirstById] at h
  | cons u rest ih =>
    by_cases hu : u.id = i
    · rw [removeFirstById, if_pos hu]
      rfl
    · rw [findFirstById, if_neg hu] at h
      rw [removeFirstById, if_neg hu, List.length_cons, List.length_cons, ih h]

theorem not_mem_removeFirstById (ts : List Task) (i : Int)
    (hnd : (ts.map Task.id).Nodup) : i ∉ (removeFirstById ts i).map Task.id := by
  induction ts with
  | nil => simp [removeFirstById]
  | cons t rest ih =>
    simp only [List.map_cons, List.nodup_cons] at hnd
    by_cases h : t.id = i
    · rw [removeFirstById, if_pos h]
      rw [← h]
      exact hnd.1
    · rw [removeFirstById, if_neg h]
      simp only [List.map_cons, List.mem_cons]
      intro hmem
      rcases hmem with hmem | hmem
      · exact h hmem.symm
      · exact ih hnd.2 hmem


theorem neg_one_le_jsIndexOf (l : List Int) (x : Int) : -1 ≤ jsIndexOf l x := by
  induction l with
  | nil => simp [jsIndexOf]
  | cons y ys ih =>
    rw [jsIndexOf]
    by_cases h : y = x
    · simp [h]
    · rw [if_neg h]
      by_cases hr : jsIndexOf ys x = -1
      · simp [hr]
      · rw [if_neg hr]
        omega

theorem jsIndexOf_eq_neg_one_iff (l : List Int) (x : Int) :
    jsIndexOf l x = -1 ↔ x ∉ l := by
  induction l with
  | nil => simp [jsIndexOf]
  | cons y ys ih =>
    rw [jsIndexOf]
    by_cases h : y = x
    · simp [h]
    · rw [if_neg h]
      show (if jsIndexOf ys x = -1 then (-1 : Int) else jsIndexOf ys x + 1) = -1
          ↔ x ∉ y :: ys
      have hge := neg_one_le_jsIndexOf ys x
      by_cases hr : jsIndexOf ys x = -1
      · rw [if_pos hr]
        constructor
        · intro _ hmem
          rcases List.mem_cons.1 hmem with hmem | hmem
          · exact h hmem.symm
          · exact ih.1 hr hmem
        · intro _
          rfl
      · rw [if_neg hr]
        constructor
        · intro hc
          exact absurd hc (by omega)
        · intro hmem
          exact absurd (ih.2 (fun hm => hmem (List.mem_cons_of_mem y hm))) hr

theorem jsIndexOf_nonneg_of_mem (l : List Int) (x : Int) (h : x ∈ l) :
    0 ≤ jsIndexOf l x := by
  have h1 := neg_one_le_jsIndexOf l x
  have h2 : jsIndexOf l x ≠ -1 := fun hc => ((jsIndexOf_eq_neg_one_iff l x).1 hc) h
  omega

theorem jsIndexOf_cons_self (x : Int) (ys : List Int) :
    jsIndexOf (x :: ys) x = 0 := by
  simp [jsIndexOf]

theorem jsIndexOf_cons_of_mem (y : Int) (ys : List Int) (b : Int) (hb : b ∈ ys)
    (hne : y ≠ b) : jsIndexOf (y :: ys) b = jsIndexOf ys b + 1 := by
  rw [jsIndexOf, if_neg hne]
  have h0 := jsIndexOf_nonneg_of_mem ys b hb
  rw [if_neg (by omega)]

theorem jsIndexOf_inj (l : List Int) (a b : Int) (ha : a ∈ l) (hb : b ∈ l)
    (h : jsIndexOf l a = jsIndexOf l b) : a = b := by
  induction l with
  | nil => simp at ha
  | cons y ys ih =>
    by_cases hya : y = a
    · by_cases hyb : y = b
      · rw [← hya, ← hyb]
      · have hbmem : b ∈ ys := by
          rcases List.mem_cons.1 hb with hb1 | hb1
          · exact absurd hb1.symm hyb
          · exact hb1
        rw [← hya, jsIndexOf_cons_self] at h
        rw [jsIndexOf_cons_of_mem y ys b hbmem (hya ▸ hyb)] at h
        have := jsIndexOf_nonneg_of_mem ys b hbmem
        omega
    · by_cases hyb : y = b
      · have hamem : a ∈ ys := by
          rcases List.mem_cons.1 ha with ha1 | ha1
          · exact absurd ha1.symm hya
          · exact ha1
        rw [← hyb, jsIndexOf_cons_self] at h
        rw [jsIndexOf_cons_of_mem y ys a hamem hya] at h
        have := jsIndexOf_nonneg_of_mem ys a hamem
        omega
      · have hamem : a ∈ ys := by
          rcases List.mem_cons.1 ha with ha1 | ha1
          · exact absurd ha1.symm hya
          · exact ha1
        have hbmem : b ∈ ys := by
          rcases List.mem_cons.1 hb with hb1 | hb1
          · exact absurd hb1.symm hyb
          · exact hb1
        rw [jsIndexOf_cons_of_mem y ys a hamem hya,
          jsIndexOf_cons_of_mem y ys b hbmem hyb] at h
        exact ih hamem hbmem (by omega)

theorem jsIndexOf_pairwise_lt (l : List Int) (hnd : l.Nodup) :
    l.Pairwise (fun a b => jsIndexOf l a < jsIndexOf l b) := by
  induction l with
  | nil => simp
  | cons x xs ih =>
    rw [List.nodup_cons] at hnd
    rw [List.pairwise_cons]
    constructor
    · intro b hb
      have hbne : x ≠ b := fun he => hnd.1 (he ▸ hb)
      rw [jsIndexOf_cons_self, jsIndexOf_cons_of_mem x xs b hb hbne]
      have := jsIndexOf_nonneg_of_mem xs b hb
      omega
    · have hp := ih hnd.2
      refine List.Pairwise.imp_of_mem ?_ hp
      intro a b ha hb hab
      have hna : x ≠ a := fun he => hnd.1 (he ▸ ha)
      have hnb : x ≠ b := fun he => hnd.1 (he ▸ hb)
      rw [jsIndexOf_cons_of_mem x xs a ha hna,
        jsIndexOf_cons_of_mem x xs b hb hnb]
      omega

theorem insertByKey_perm (k : Task → Int) (t : Task) (l : List Task) :
    List.Perm (insertByKey k t l) (t :: l) := by
  induction l with
  | nil => exact List.Perm.refl _
  | cons x xs ih =>
    show List.Perm (if k t ≤ k x then t :: x :: xs else x :: insertByKey k t xs) (t :: x :: xs)
    by_cases h : k t ≤ k x
    · rw [if_pos h]
    · rw [if_neg h]
      exact (ih.cons x).trans (List.Perm.swap t x xs)

theorem sortByKey_perm (k : Task → Int) (l : List Task) :
    List.Perm (sortByKey k l) l := by
  induction l with
  | nil => exact List.Perm.refl _
  | cons x xs ih =>
    show List.Perm (insertByKey k x (sortByKey k xs)) (x :: xs)
    exact (insertByKey_perm k x (sortByKey k xs)).trans (ih.cons x)

theorem insertByKey_pairwise (k : Task → Int) (t : Task) (l : List Task)
    (h : l.Pairwise (fun a b => k a ≤ k b)) :
    (insertByKey k t l).Pairwise (fun a b => k a ≤ k b) := by
  induction l with
  | nil => simp [insertByKey]
  | cons x xs ih =>
    rw [List.pairwise_cons] at h
    show (if k t ≤ k x then t :: x :: xs else x :: insertByKey k t xs).Pairwise _
    by_cases hle : k t ≤ k x
    · rw [if_pos hle, List.pairwise_cons]
      constructor
      · intro b hb
        rcases List.mem_cons.1 hb with hb | hb
        · rw [hb]
          exact hle
        · exact le_trans hle (h.1 b hb)
      · exact List.pairwise_cons.2 h
    · rw [if_neg hle, List.pairwise_cons]
      constructor
      · intro b hb
        have hmem := (insertByKey_perm k t xs).mem_iff.1 hb
        rcases List.mem_cons.1 hmem with hb1 | hb1
        · rw [hb1]
          exact le_of_lt (lt_of_not_le hle)
        · exact h.1 b hb1
      · exact ih h.2

theorem sortByKey_pairwise (k : Task → Int) (l : List Task) :
    (sortByKey k l).Pairwise (fun a b => k a ≤ k b) := by
  induction l with
  | nil => simp [sortByKey]
  | cons x xs ih =>
    show (insertByKey k x (sortByKey k xs)).Pairwise _
    exact insertByKey_pairwise k x _ ih

theorem insertByKey_append_of_gt (k : Task → Int) (t : Task) (l₁ l₂ : List Task)
    (h : ∀ y ∈ l₁, ¬ k t ≤ k y) :
    insertByKey k t (l₁ ++ l₂) = l₁ ++ insertByKey k t l₂ := by
  induction l₁ with
  | nil => rfl
  | cons x xs ih =>
    rw [List.cons_append]
    show (if k t ≤ k x then t :: x :: (xs ++ l₂)
        else x :: insertByKey k t (xs ++ l₂)) = (x :: xs) ++ insertByKey k t l₂
    rw [if_neg (h x (List.mem_cons_self x xs)),
      ih (fun y hy => h y (List.mem_cons_of_mem x hy)), List.cons_append]

theorem insertByKey_eq_cons (k : Task → Int) (t : Task) (l : List Task)
    (h : ∀ y ∈ l, k t ≤ k y) : insertByKey k t l = t :: l := by
  cases l with
  | nil => rfl
  | cons x xs =>
    show (if k t ≤ k x then t :: x :: xs else x :: insertByKey k t xs) = t :: x :: xs
    rw [if_pos (h x (List.mem_cons_self x xs))]

theorem sortByKey_partition (k : Task → Int) (l : List Task)
    (hk : ∀ t, -1 ≤ k t) :
    sortByKey k l =
      l.filter (fun t => decide (k t = -1)) ++
        sortByKey k (l.filter (fun t => !decide (k t = -1))) := by
  induction l with
  | nil => rfl
  | cons x xs ih =>
    show insertByKey k x (sortByKey k xs) = _
    rw [ih]
    by_cases hx : k x = -1
    · have hfront : ∀ y ∈ xs.filter (fun t => decide (k t = -1)) ++
          sortByKey k (xs.filter (fun t => !decide (k t = -1))), k x ≤ k y := by
        intro y _
        rw [hx]
        exact hk y
      rw [insertByKey_eq_cons k x _ hfront, List.filter_cons, List.filter_cons]
      rw [if_pos (by simpa using hx), if_neg (by simpa using hx)]
      rfl
    · have hgt : ∀ y ∈ xs.filter (fun t => decide (k t = -1)), ¬ k x ≤ k y := by
        intro y hy
        have hy1 := (List.mem_filter.1 hy).2
        have hy2 : k y = -1 := by simpa using hy1
        have hxge := hk x
        intro hle
        rw [hy2] at hle
        exact hx (le_antisymm hle hxge)
      rw [insertByKey_append_of_gt k x _ _ hgt, List.filter_cons, List.filter_cons]
      rw [if_neg (by simpa using hx), if_pos (by simpa using hx)]
      rfl

theorem handleAddTodo_valid (s : AppState) (input : String) (now rand : Int)
    (dateStr : String) (h : validateTodoText (jsTrim input) = true) :
    handleAddTodo s input now rand dateStr =
      (addTodo s (jsTrim input) now rand dateStr, .ok) := by
  unfold handleAddTodo
  simp [h]

theorem handleAddTodo_invalid (s : AppState) (input : String) (now rand : Int)
    (dateStr : String) (h : validateTodoText (jsTrim input) = false) :
    handleAddTodo s input now rand dateStr = (s, .invalidInput) := by
  unfold handleAddTodo
  simp [h]

theorem loadTodosStep_deletedTodo (s : AppState) (tp : Option JVal) :
    (loadTodosStep s tp).deletedTodo = s.deletedTodo := by
  unfold loadTodosStep
  split <;> rfl

theorem loadFilterStep_deletedTodo (s1 : AppState) (fp : Option JVal) :
    (loadFilterStep s1 fp).deletedTodo = s1.deletedTodo := by
  unfold loadFilterStep
  split
  · split <;> rfl
  · rfl

theorem loadFromStorage_deletedTodo (s : AppState) (tp fp : Option JVal) :
    (loadFromStorage s tp fp).deletedTodo = s.deletedTodo := by
  unfold loadFromStorage
  rw [loadFilterStep_deletedTodo, loadTodosStep_deletedTodo]

theorem toggleTodo_preserves (s : AppState) (i : Int) :
    (toggleTodo s i).todos.map Task.id = s.todos.map Task.id ∧
      (toggleTodo s i).deletedTodo = s.deletedTodo :=
  ⟨updateFirstById_map_id s.todos i _ (fun _ => rfl), rfl⟩

theorem editTodo_preserves (s : AppState) (i : Int) (pr : Option String) :
    (editTodo s i pr).1.todos.map Task.id = s.todos.map Task.id ∧
      (editTodo s i pr).1.deletedTodo = s.deletedTodo := by
  unfold editTodo
  cases hf : findFirstById s.todos i with
  | none => exact ⟨rfl, rfl⟩
  | some u =>
    cases pr with
    | none => exact ⟨rfl, rfl⟩
    | some newText =>
      dsimp only
      by_cases hv : validateTodoText newText
      · rw [if_pos hv]
        exact ⟨updateFirstById_map_id s.todos i _ (fun t => rfl), rfl⟩
      · rw [if_neg hv]
        exact ⟨rfl, rfl⟩

theorem nodup_append_singleton (l : List Int) (a : Int) (hl : l.Nodup)
    (ha : a ∉ l) : (l ++ [a]).Nodup :=
  (List.perm_append_singleton a l).nodup_iff.2 (List.nodup_cons.2 ⟨ha, hl⟩)

theorem reachableU_uniqueInv (s : AppState) (h : ReachableU s) : UniqueInv s := by
  induction h with
  | init =>
    constructor
    · simp [initialState]
    · intro t ht
      simp [initialState] at ht
  | load s tp fp hs hnd hslot ih =>
    refine ⟨hnd, ?_⟩
    intro t ht
    rw [loadFromStorage_deletedTodo] at ht
    exact hslot t ht
  | add s input now rand dateStr hs hfresh hslot ih =>
    by_cases hv : validateTodoText (jsTrim input) = true
    · rw [handleAddTodo_valid s input now rand dateStr hv]
      refine ⟨?_, ?_⟩
      · show ((s.todos ++ [_]).map Task.id).Nodup
        rw [List.map_append]
        exact nodup_append_singleton _ _ ih.1 hfresh
      · intro t ht
        have ht' : s.deletedTodo = some t := ht
        have h1 := ih.2 t ht'
        have h2 := hslot t ht'
        show t.id ∉ (s.todos ++ [_]).map Task.id
        rw [List.map_append]
        intro hm
        rcases List.mem_append.1 hm with hm | hm
        · exact h1 hm
        · rcases List.mem_singleton.1 hm with hm
          exact h2 hm.symm
    · rw [handleAddTodo_invalid s input now rand dateStr
        (Bool.eq_false_iff.2 hv)]
      exact ih
  | toggle s i hs ih =>
    have hp := toggleTodo_preserves s i
    refine ⟨?_, ?_⟩
    · rw [hp.1]
      exact ih.1
    · intro t ht
      rw [hp.1]
      rw [hp.2] at ht
      exact ih.2 t ht
  | edit s i pr hs ih =>
    have hp := editTodo_preserves s i pr
    refine ⟨?_, ?_⟩
    · rw [hp.1]
      exact ih.1
    · intro t ht
      rw [hp.1]
      rw [hp.2] at ht
      exact ih.2 t ht
  | del s i now hs ih =>
    cases hf : findFirstById s.todos i with
    | none => simpa [deleteTodo, hf] using ih
    | some u =>
      refine ⟨?_, ?_⟩
      · show (((deleteTodo s i now).1.todos).map Task.id).Nodup
        simp only [deleteTodo, hf]
        exact List.Nodup.sublist
          ((removeFirstById_sublist s.todos i).map Task.id) ih.1
      · intro t ht
        simp only [deleteTodo, hf, Option.some.injEq] at ht
        show t.id ∉ ((deleteTodo s i now).1.todos).map Task.id
        simp only [deleteTodo, hf]
        rw [← ht]
        rw [findFirstById_id s.todos i u hf]
        exact not_mem_removeFirstById s.todos i ih.1
  | undo s now confirmed hs ih =>
    unfold setupUndo
    by_cases hc : confirmed = true ∧ now - s.deletedTime.getD 0 < 5000
    · rw [if_pos hc]
      cases hd : s.deletedTodo with
      | none =>
        refine ⟨ih.1, ?_⟩
        intro t ht
        simp at ht
      | some u =>
        refine ⟨?_, ?_⟩
        · show ((s.todos ++ [u]).map Task.id).Nodup
          rw [List.map_append]
          exact nodup_append_singleton _ _ ih.1 (ih.2 u hd)
        · intro t ht
          simp at ht
    · rw [if_neg hc]
      refine ⟨ih.1, ?_⟩
      intro t ht
      simp at ht
  | clear s confirmed hs ih =>
    unfold clearCompleted
    by_cases h0 : (s.todos.filter (fun t => t.completed)).length = 0
    · rw [if_pos h0]
      exact ih
    · rw [if_neg h0]
      by_cases hc : confirmed = true
      · rw [hc, if_pos rfl]
        refine ⟨?_, ?_⟩
        · exact List.Nodup.sublist ((List.filter_sublist s.todos).map Task.id) ih.1
        · intro t ht
          have h2 := ih.2 t ht
          intro hm
          exact h2 (((List.filter_sublist s.todos).map Task.id).subset hm)
      · rw [if_neg hc]
        exact ih
  | reorder s orderedIds hs ih =>
    have hperm := (sortByKey_perm (fun t => jsIndexOf orderedIds t.id) s.todos).map
      Task.id
    refine ⟨?_, ?_⟩
    · exact hperm.nodup_iff.2 ih.1
    · intro t ht
      have h2 := ih.2 t ht
      intro hm
      exact h2 (hperm.mem_iff.1 hm)

theorem searchStep_eq_filter (todos : List Task) (q : String) :
    searchStep todos q = todos.filter (fun t => searchMatches q t) := by
  unfold searchStep searchMatches
  by_cases hq : jsTrim q ≠ ""
  · rw [if_pos hq]
    exact (List.filter_congr (fun t _ => by rw [if_pos hq])).symm
  · rw [if_neg hq]
    have h1 : todos.filter (fun t => if jsTrim q ≠ "" then
        jsIncludes (jsToLower t.text) (jsToLower q) else true) =
        todos.filter (fun _ => true) :=
      List.filter_congr (fun t _ => by rw [if_neg hq])
    rw [h1, List.filter_true]

theorem loadFilterStep_todos (s1 : AppState) (fp : Option JVal) :
    (loadFilterStep s1 fp).todos = s1.todos := by
  unfold loadFilterStep
  split
  · split <;> rfl
  · rfl

theorem filter_unknown_congr (ids : List Int) (l : List Task) :
    l.filter (fun t => decide (jsIndexOf ids t.id = -1)) =
      l.filter (fun t => decide (t.id ∉ ids)) :=
  List.filter_congr
    (fun t _ => decide_eq_decide.2 (jsIndexOf_eq_neg_one_iff ids t.id))

theorem filter_known_congr (ids : List Int) (l : List Task) :
    l.filter (fun t => !decide (jsIndexOf ids t.id = -1)) =
      l.filter (fun t => decide (t.id ∈ ids)) := by
  refine List.filter_congr (fun t _ => ?_)
  rw [← decide_not]
  refine decide_eq_decide.2 ?_
  rw [jsIndexOf_eq_neg_one_iff ids t.id]
  exact not_not

/-- C1 (counterexample): the claimed id-uniqueness invariant fails on the
code. generateId is Date.now() plus a random jitter with no collision check,
so two adds in the same millisecond with the same jitter (time 100, jitter 0
twice) yield a reachable state whose two tasks both carry id 100. -/
theorem C1_unique_ids_counterexample :
    Reachable dupIdState ∧ ¬ (dupIdState.todos.map Task.id).Nodup :=
  ⟨Reachable.add _ "a" 100 0 "d" (Reachable.add _ "a" 100 0 "d" Reachable.init),
   by decide⟩

/-- C1 (amended): in every reachable state of the manager, ids in the
collection are unique, PROVIDED every add generates an id distinct from all
ids in the collection and from the pending-undo slot, and every load yields a
collection with distinct ids none equal to the pending slot's id (the code
checks neither; without these provisos the invariant fails, see the
counterexample). -/
theorem C1_unique_ids_amended (s : AppState) (h : ReachableU s) :
    (s.todos.map Task.id).Nodup :=
  (reachableU_uniqueInv s h).1

/-- C1 witness: the amended theorem applied to the state reached by one
fresh add from the constructor state. -/
theorem C1_unique_ids_amended_witness :
    ((handleAddTodo initialState "a" 100 0 "d").1.todos.map Task.id).Nodup :=
  C1_unique_ids_amended _
    (ReachableU.add initialState "a" 100 0 "d" ReachableU.init (by decide)
      (by intro t ht; simp [initialState] at ht))

/-- C10: reorderTodos only permutes the collection, for every id list
(unknown ids, duplicates, or missing ids included): no task is lost,
duplicated, or modified in any field. -/
theorem C10_reorder_perm (s : AppState) (orderedIds : List Int) :
    List.Perm (reorderTodos s orderedIds).todos s.todos :=
  sortByKey_perm _ s.todos

/-- C2 (counterexample): the claim says ids absent from orderedIds keep
their relative position APPENDED AFTER the recognized ones (as reorderSpec
computes: [A, B] on the collection [A(id 1), B(id 2)] with orderedIds [1]).
The code gives unrecognized ids the sort key indexOf = -1, which sorts them
BEFORE the recognized ones: the result is [B, A], not [A, B]. -/
theorem C2_reorder_counterexample :
    (reorderTodos { initialState with todos := [reorderTaskA, reorderTaskB] }
        [1]).todos = [reorderTaskB, reorderTaskA]
      ∧ reorderSpec [reorderTaskA, reorderTaskB] [1] =
          [reorderTaskA, reorderTaskB]
      ∧ ([reorderTaskB, reorderTaskA] : List Task) ≠
          [reorderTaskA, reorderTaskB] :=
  ⟨by decide, by decide, by decide⟩

/-- C2 (amended): reorder(orderedIds) places the tasks whose ids do NOT
appear in orderedIds first, keeping their original relative order, followed by
the recognized tasks; the recognized tasks occur in orderedIds order
(non-decreasing indexOf positions); and when orderedIds is a permutation of
the collection's ids (all distinct), the resulting id order equals orderedIds
exactly. -/
theorem C2_reorder_amended (s : AppState) (orderedIds : List Int) :
    (reorderTodos s orderedIds).todos =
        s.todos.filter (fun t => decide (t.id ∉ orderedIds)) ++
          jsSortByOrderKey orderedIds
            (s.todos.filter (fun t => decide (t.id ∈ orderedIds)))
      ∧ ((reorderTodos s orderedIds).todos.filter
            (fun t => decide (t.id ∈ orderedIds))).Pairwise
          (fun a b => jsIndexOf orderedIds a.id ≤ jsIndexOf orderedIds b.id)
      ∧ (List.Perm (s.todos.map Task.id) orderedIds → orderedIds.Nodup →
          (reorderTodos s orderedIds).todos.map Task.id = orderedIds) := by
  refine ⟨?_, ?_, ?_⟩
  · have ha := sortByKey_partition (fun t => jsIndexOf orderedIds t.id) s.todos
      (fun t => neg_one_le_jsIndexOf orderedIds t.id)
    rw [filter_unknown_congr, filter_known_congr] at ha
    exact ha
  · have hb := sortByKey_pairwise (fun t => jsIndexOf orderedIds t.id) s.todos
    exact List.Pairwise.sublist (List.filter_sublist _) hb
  · intro hperm hnd
    have hpermL : List.Perm ((reorderTodos s orderedIds).todos.map Task.id)
        orderedIds :=
      ((sortByKey_perm (fun t => jsIndexOf orderedIds t.id) s.todos).map
        Task.id).trans hperm
    have hsorted := sortByKey_pairwise (fun t => jsIndexOf orderedIds t.id)
      s.todos
    have hmapPW : ((reorderTodos s orderedIds).todos.map Task.id).Pairwise
        (fun a b => jsIndexOf orderedIds a ≤ jsIndexOf orderedIds b) :=
      (List.pairwise_map).2 hsorted
    have hnodupL : ((reorderTodos s orderedIds).todos.map Task.id).Nodup :=
      hpermL.symm.nodup hnd
    have hstrictL : ((reorderTodos s orderedIds).todos.map Task.id).Pairwise
        (fun a b => jsIndexOf orderedIds a < jsIndexOf orderedIds b) := by
      refine List.Pairwise.imp_of_mem ?_ (hmapPW.and hnodupL)
      intro a b ha hb hab
      refine lt_of_le_of_ne hab.1 (fun heq => hab.2 ?_)
      exact jsIndexOf_inj orderedIds a b (hpermL.subset ha) (hpermL.subset hb)
        heq
    have hstrictIds := jsIndexOf_pairwise_lt orderedIds hnd
    haveI : IsAntisymm Int
        (fun a b => jsIndexOf orderedIds a < jsIndexOf orderedIds b) :=
      ⟨fun a b h1 h2 => absurd (h1.trans h2) (lt_irrefl _)⟩
    exact List.eq_of_perm_of_sorted hpermL hstrictL hstrictIds

/-- C2 witness: the spec's own example, reorder([3,1,2]) on a collection with
ids 1,2,3, yields the id order [3,1,2] (permutation clause of the amended
theorem, with its two hypotheses discharged by computation). -/
theorem C2_reorder_amended_witness :
    (reorderTodos reorderWitnessState [3, 1, 2]).todos.map Task.id =
      [3, 1, 2] :=
  (C2_reorder_amended reorderWitnessState [3, 1, 2]).2.2 (by decide) (by decide)

/-- C3 (counterexample): the claim says the TRIMMED query is matched. The
code only uses trim to test emptiness and then matches the UNtrimmed query
literally: for the query with a trailing space on a task whose text is
exactly the word, the code returns nothing while the claim's trimmed-match
predicate (searchMatchesSpec) keeps the task. -/
theorem C3_visibleTasks_counterexample :
    filterTodos [milkTask] "all" "milk " = []
      ∧ [milkTask].filter
          (fun t => searchMatchesSpec "milk " t && filterMatches "all" t) =
        [milkTask] :=
  ⟨by decide, by decide⟩

/-- C3 (amended): filterTodos is pure and returns exactly the tasks
satisfying the conjunction of the search predicate (case-insensitive
substring match of the UNtrimmed query, vacuously true when the query is
empty after trimming) and the completion-filter predicate (active excludes
completed, completed keeps only completed, anything else keeps all),
preserving the collection's order (the result is a filter, hence a sublist,
of the input). -/
theorem C3_visibleTasks_amended (todos : List Task) (flt searchQuery : String) :
    filterTodos todos flt searchQuery =
        todos.filter
          (fun t => searchMatches searchQuery t && filterMatches flt t)
      ∧ List.Sublist (filterTodos todos flt searchQuery) todos := by
  have hcomb : ∀ c : Task → Bool,
      (todos.filter (fun t => searchMatches searchQuery t)).filter c =
        todos.filter (fun t => searchMatches searchQuery t && c t) := by
    intro c
    rw [List.filter_filter]
    exact List.filter_congr
      (fun t _ => Bool.and_comm (c t) (searchMatches searchQuery t))
  have hmain : filterTodos todos flt searchQuery =
      todos.filter (fun t => searchMatches searchQuery t && filterMatches flt t) := by
    unfold filterTodos filterMatches
    by_cases h1 : flt = "active"
    · rw [if_pos h1, searchStep_eq_filter, hcomb]
      exact List.filter_congr (fun t _ => by rw [if_pos h1])
    · rw [if_neg h1]
      by_cases h2 : flt = "completed"
      · rw [if_pos h2, searchStep_eq_filter, hcomb]
        exact List.filter_congr (fun t _ => by rw [if_neg h1, if_pos h2])
      · rw [if_neg h2, searchStep_eq_filter]
        refine List.filter_congr (fun t _ => ?_)
        rw [if_neg h1, if_neg h2, Bool.and_true]
  refine ⟨hmain, ?_⟩
  rw [hmain]
  exact List.filter_sublist todos

/-- C4: delete(id) followed by a confirmed undo at a time strictly less than
5000ms after the deletion restores the deleted task itself (hence the same
id, text, completed and createdAt) appended at the end of the collection. -/
theorem C4_delete_undo_roundtrip (s : AppState) (i : Int) (t : Task)
    (tdel now : Int) (hfind : findFirstById s.todos i = some t)
    (hwin : now - tdel < 5000) :
    (setupUndo (deleteTodo s i tdel).1 now true).todos =
      removeFirstById s.todos i ++ [t] := by
  unfold deleteTodo
  rw [hfind]
  unfold setupUndo
  dsimp only [Option.getD_some]
  rw [if_pos ⟨rfl, hwin⟩]

/-- C4 witness: deleting the only task at time 1000 and undoing at 5999. -/
theorem C4_delete_undo_roundtrip_witness :
    (setupUndo (deleteTodo undoDemoState 7 1000).1 5999 true).todos =
      removeFirstById undoDemoState.todos 7 ++ [undoDemoTask] :=
  C4_delete_undo_roundtrip undoDemoState 7 undoDemoTask 1000 5999 (by decide)
    (by decide)

/-- C5: delete(id) followed by an undo attempt at a time at least 5000ms
after the deletion is a silent no-op: the collection stays as after the
delete and its size remains one less than before the delete. -/
theorem C5_undo_expired_noop (s : AppState) (i : Int) (t : Task)
    (tdel now : Int) (hfind : findFirstById s.todos i = some t)
    (hlate : 5000 ≤ now - tdel) :
    (setupUndo (deleteTodo s i tdel).1 now true).todos =
        removeFirstById s.todos i
      ∧ (setupUndo (deleteTodo s i tdel).1 now true).todos.length + 1 =
          s.todos.length := by
  have hbody : (setupUndo (deleteTodo s i tdel).1 now true).todos =
      removeFirstById s.todos i := by
    unfold deleteTodo
    rw [hfind]
    unfold setupUndo
    dsimp only [Option.getD_some]
    rw [if_neg (fun hc => absurd hc.2 (not_lt.2 hlate))]
  refine ⟨hbody, ?_⟩
  rw [hbody]
  exact length_removeFirstById s.todos i t hfind

/-- C5 witness: deleting at time 1000 and attempting undo at exactly 6000. -/
theorem C5_undo_expired_noop_witness :
    (setupUndo (deleteTodo undoDemoState 7 1000).1 6000 true).todos =
        removeFirstById undoDemoState.todos 7
      ∧ (setupUndo (deleteTodo undoDemoState 7 1000).1 6000 true).todos.length
          + 1 = undoDemoState.todos.length :=
  C5_undo_expired_noop undoDemoState 7 undoDemoTask 1000 6000 (by decide)
    (by decide)

/-- C6: for input that is non-empty after trimming, add succeeds and appends
exactly one new task (the trimmed text, completed = false) at the end of the
collection, growing it by exactly 1. -/
theorem C6_add_appends (s : AppState) (input : String) (now rand : Int)
    (dateStr : String) (h : jsTrim input ≠ "") :
    (handleAddTodo s input now rand dateStr).1.todos =
        s.todos ++
          [{ id := generateId now rand
             text := jsTrim input
             completed := false
             createdAt := dateStr }]
      ∧ (handleAddTodo s input now rand dateStr).2 = .ok
      ∧ (handleAddTodo s input now rand dateStr).1.todos.length =
          s.todos.length + 1 := by
  have hv := validateTodoText_jsTrim_of_ne input h
  rw [handleAddTodo_valid s input now rand dateStr hv]
  refine ⟨rfl, rfl, ?_⟩
  show (s.todos ++ [_]).length = s.todos.length + 1
  rw [List.length_append]
  rfl

/-- C6 witness: adding " buy milk " to the empty constructor state. -/
theorem C6_add_appends_witness :
    (handleAddTodo initialState " buy milk " 100 5 "d").1.todos =
        initialState.todos ++
          [{ id := generateId 100 5
             text := jsTrim " buy milk "
             completed := false
             createdAt := "d" }]
      ∧ (handleAddTodo initialState " buy milk " 100 5 "d").2 = .ok
      ∧ (handleAddTodo initialState " buy milk " 100 5 "d").1.todos.length =
          initialState.todos.length + 1 :=
  C6_add_appends initialState " buy milk " 100 5 "d" (by decide)

/-- C7: for input that is empty after trimming, add fails with InvalidInput
and the entire state, in particular the collection, is unchanged. -/
theorem C7_add_invalid (s : AppState) (input : String)
    (h : jsTrim input = "") (now rand : Int) (dateStr : String) :
    handleAddTodo s input now rand dateStr = (s, .invalidInput) := by
  apply handleAddTodo_invalid
  rw [h]
  rfl

/-- C7 witness: adding a whitespace-only input to the constructor state. -/
theorem C7_add_invalid_witness :
    handleAddTodo initialState "   " 100 0 "d" =
      (initialState, .invalidInput) :=
  C7_add_invalid initialState "   " (by decide) 100 0 "d"

/-- C8: for every id not in the collection, toggle leaves the state
untouched, and edit and delete leave the state untouched and report
NotFound (the branch the code takes when find fails). -/
theorem C8_missing_id_noop (s : AppState) (i : Int)
    (h : i ∉ s.todos.map Task.id) (pr : Option String) (now : Int) :
    toggleTodo s i = s
      ∧ editTodo s i pr = (s, .notFound)
      ∧ deleteTodo s i now = (s, .notFound) := by
  have hnone : findFirstById s.todos i = none :=
    (findFirstById_eq_none s.todos i).2 h
  refine ⟨?_, ?_, ?_⟩
  · show { s with todos := updateFirstById s.todos i _ } = s
    rw [updateFirstById_of_not_mem s.todos i _ h]
  · unfold editTodo
    rw [hnone]
  · unfold deleteTodo
    rw [hnone]

/-- C8 witness: id 2 is absent from a collection holding only id 1. -/
theorem C8_missing_id_noop_witness :
    toggleTodo missDemoState 2 = missDemoState
      ∧ editTodo missDemoState 2 (some "x") = (missDemoState, .notFound)
      ∧ deleteTodo missDemoState 2 50 = (missDemoState, .notFound) :=
  C8_missing_id_noop missDemoState 2 (by decide) (some "x") 50

/-- C9: a stored todos payload rejected by validateTodos is discarded
whole: load from the constructor state leaves the collection empty, with no
partial recovery of valid elements (the model is a total function, so no
crash). -/
theorem C9_load_invalid_empty (v : JVal) (fp : Option JVal)
    (h : validateTodos v = false) :
    (loadFromStorage initialState (some v) fp).todos = [] := by
  unfold loadFromStorage
  have h1 : loadTodosStep initialState (some v) = initialState := by
    unfold loadTodosStep
    rw [if_neg (by simp [storedTodosValue, h])]
  rw [h1, loadFilterStep_todos]
  rfl

/-- C9 witness: a stored string payload (not an array) fails validation. -/
theorem C9_load_invalid_empty_witness :
    (loadFromStorage initialState (some (JVal.str "oops")) none).todos = [] :=
  C9_load_invalid_empty (JVal.str "oops") none (by decide)

end TodoSpec
